import Mathlib

/-!
A shallow embedding of `validator/validator.go` from the gologic/components
repository, together with theorems settling the specification claims about it.

Modelling conventions:
* Go `map[string]string` values are embedded as association lists
  (`GoMap`) with Go's read/write semantics (`lookupKey`, `setKey`).
* Go strings are Lean `String`s (valid UTF-8); `len` on a Go string is the
  UTF-8 byte count (`goLen`).
* A Go runtime panic (here: slice index out of range) is embedded as `none`
  in an `Option` result, and propagates through callers as `none`.
* Library calls whose behaviour is not shallowly embeddable (DNS lookup,
  compiled regular expressions with caller-supplied patterns, `time.Parse`,
  IP parsing, IEEE-754 float parsing/comparison) are abstracted into an
  environment record `Env`; all structural theorems hold for every `Env`.
  The fixed regular expressions of the source (alpha, digits, email, ...)
  are embedded directly as character-class checks.
* Definition order is rearranged only where Lean requires a definition
  before its use (e.g. `validateMinChars` before `validateCharsBetween`).
-/

/-- A Go `map[string]string`, embedded as an association list. -/
abbrev GoMap := List (String × String)

/-- Go map read: `v, ok := m[k]` gives `some v` when the key is present. -/
def lookupKey : GoMap → String → Option String
  | [], _ => none
  | (k, v) :: rest, key => if k = key then some v else lookupKey rest key

/-- Go map write: `m[k] = v` overwrites an existing binding or adds one. -/
def setKey : GoMap → String → String → GoMap
  | [], key, val => [(key, val)]
  | (k, v) :: rest, key, val =>
    if k = key then (key, val) :: rest else (k, v) :: setKey rest key val

/-- Core of `strings.Split` for a single-character separator: splits the
character list at every occurrence of `c`.  Always returns a non-empty list;
the number of pieces is one more than the number of occurrences of `c`. -/
def splitChAux (c : Char) : List Char → List (List Char)
  | [] => [[]]
  | x :: xs =>
    if x = c then [] :: splitChAux c xs
    else
      match splitChAux c xs with
      | [] => [[x]]
      | h :: t => (x :: h) :: t

/-- Go `strings.Split(s, sep)` for the single-character separators used by
the validator (`'|'`, `':'`, `','`, `'@'`). -/
def goSplit (c : Char) (s : String) : List String :=
  (splitChAux c s.data).map String.mk

/-- Go `len(s)` on a string: the number of bytes of its UTF-8 encoding. -/
def goLen (s : String) : Nat := s.utf8ByteSize

/-- ASCII lower-casing of one character.  `strings.ToLower` lower-cases all
Unicode; the only non-ASCII characters Go lowers into ASCII are U+0130 (to
`i`) and U+212A (to `k`), neither of which occurs in `http://` or
`https://`, so on every use site in the source this ASCII model agrees
extensionally with Go. -/
def goToLowerChar (c : Char) : Char :=
  if 'A' ≤ c ∧ c ≤ 'Z' then Char.ofNat (c.toNat + 32) else c

/-- Go `strings.ToLower`, restricted as explained at `goToLowerChar`. -/
def goToLower (s : String) : String := String.mk (s.data.map goToLowerChar)

/-- Go `strings.HasPrefix(s, pre)`. -/
def goStartsWith (s pre : String) : Bool := pre.data.isPrefixOf s.data

/-- Go `strings.TrimPrefix(s, pre)`. -/
def goTrimStart (s pre : String) : String :=
  if goStartsWith s pre then String.mk (s.data.drop pre.data.length) else s

/-- The numeric value of a list of decimal digit characters. -/
def digitsToNat (l : List Char) : Nat :=
  l.foldl (fun acc d => acc * 10 + (d.toNat - Char.toNat '0')) 0

/-- Go `strconv.ParseInt(s, 10, bitSize)`: `some v` exactly when Go returns
a nil error, i.e. the string is an optional sign followed by at least one
decimal digit and the signed value fits in `bitSize` bits.  A syntax or
range error is `none`. -/
def goParseInt (s : String) (bitSize : Nat) : Option Int :=
  match s.data with
  | [] => none
  | c :: cs =>
    let signDigits : Bool × List Char :=
      if c == '-' then (true, cs)
      else if c == '+' then (false, cs)
      else (false, c :: cs)
    let ds := signDigits.2
    if ds.isEmpty || !ds.all (fun d => d.isDigit) then none
    else
      let v : Int := if signDigits.1 then -(digitsToNat ds : Int) else (digitsToNat ds : Int)
      if -((2 : Int) ^ (bitSize - 1)) ≤ v ∧ v ≤ (2 : Int) ^ (bitSize - 1) - 1 then some v
      else none

/-- Go `strconv.ParseBool(s)` succeeds exactly on these twelve literals;
the validator only ever consults success. -/
def goParseBoolOk (s : String) : Bool :=
  s == "1" || s == "t" || s == "T" || s == "TRUE" || s == "true" || s == "True" ||
  s == "0" || s == "f" || s == "F" || s == "FALSE" || s == "false" || s == "False"

/-- Counts the (non-overlapping) occurrences of the two-character pattern
`%s`, scanning left to right and resuming after each hit. -/
def countPS : List Char → Nat
  | '%' :: 's' :: rest => countPS rest + 1
  | _ :: rest => countPS rest
  | [] => 0

/-- Go `strings.Count(s, sub)` specialised to the only substring the
source counts, `"%s"`. -/
def countVerbs (s : String) : Nat := countPS s.data

/-- Substitution core of `fmt.Sprintf` for format strings whose only verbs
are `%s`: each `%s` consumes the next argument; a missing argument yields
Go's `%!s(MISSING)` marker.  `buildErrorMessage` only invokes this with a
verb count equal to the argument count, where this model is exact. -/
def substS : List Char → List String → List Char
  | '%' :: 's' :: rest, arg :: args => arg.data ++ substS rest args
  | '%' :: 's' :: rest, [] => String.data "%!s(MISSING)" ++ substS rest []
  | ch :: rest, args => ch :: substS rest args
  | [], _ => []

/-- Go `fmt.Sprintf(format, args...)` on the `%s`-only format strings of
the message table (see `substS`). -/
def goSprintf (format : String) (args : List String) : String :=
  String.mk (substS format.data args)

/-- Results of the library calls that are not shallowly embeddable: DNS
resolution (`net.LookupHost`), caller-supplied regular expressions
(`regexp.Compile` / `MatchString`), `time.Parse`, `net.ParseIP`, and
IEEE-754 parsing/comparison (`strconv.ParseFloat`).  Each `floatXx value
param` field stands for "both strings parse as float64 and the comparison
holds".  Structural theorems below are proved for every `Env`. -/
structure Env where
  lookupHostOk : String → Bool
  regexCompileOk : String → Bool
  regexMatchString : String → String → Bool
  parseIPOk : String → Bool
  timeParseOk : String → String → Bool
  parseFloatOk : String → Bool
  floatGe : String → String → Bool
  floatLe : String → String → Bool
  floatEq : String → String → Bool

/-- Go's `type Validator func(name, value string, inputs map[string]string,
params []string) bool`, with the abstract environment threaded through and
`none` standing for a runtime panic inside the call. -/
abbrev Validator := Env → String → String → GoMap → List String → Option Bool

/-- `stringInSlice` from validator.go:365-372. -/
def stringInSlice (needle : String) (haystack : List String) : Bool :=
  haystack.any (fun val => val == needle)

/-- `validateAccepted`, validator.go:88-91. -/
def validateAccepted : Validator := fun _ _ value _ _ =>
  some (stringInSlice value ["1", "true", "yes", "on"])

/-- `validateActiveUrl`, validator.go:93-103: scheme check on the
lower-cased value, then trim both scheme spellings, then a DNS lookup. -/
def validateActiveUrl : Validator := fun env _ value _ _ =>
  let lc := goToLower value
  if !(goStartsWith lc "http://" || goStartsWith lc "https://") then some false
  else
    let lc1 := goTrimStart lc "http://"
    let lc2 := goTrimStart lc1 "https://"
    some (env.lookupHostOk lc2)

/-- `validateAlpha`, validator.go:105-107: the fixed pattern
`^[a-zA-Z]+$`, i.e. non-empty and every character an ASCII letter. -/
def validateAlpha : Validator := fun _ _ value _ _ =>
  some (!value.data.isEmpty && value.data.all (fun c => c.isAlpha))

/-- `validateAlphaDash`, validator.go:109-111: `^[a-zA-Z0-9-_]+$`. -/
def validateAlphaDash : Validator := fun _ _ value _ _ =>
  some (!value.data.isEmpty &&
    value.data.all (fun c => c.isAlpha || c.isDigit || c == '-' || c == '_'))

/-- `validateAlphaNumeric`, validator.go:113-115: `^[a-zA-Z0-9]+$`. -/
def validateAlphaNumeric : Validator := fun _ _ value _ _ =>
  some (!value.data.isEmpty && value.data.all (fun c => c.isAlpha || c.isDigit))

/-- `validateBoolean`, validator.go:117-120. -/
def validateBoolean : Validator := fun _ _ value _ _ =>
  some (goParseBoolOk value)

/-- `validateChars`, validator.go:122-128: with exactly one parameter,
parse it as a 16-bit integer and compare with the byte length. -/
def validateChars : Validator := fun _ _ value _ params =>
  some (match params with
    | [p] =>
      match goParseInt p 16 with
      | some charCount => (goLen value : Int) == charCount
      | none => false
    | _ => false)

/-- `validateMinChars`, validator.go:190-196.  The guard admits exactly one
parameter but the bound is read from `params[1]`, which does not exist:
the Go code panics with an index-out-of-range error, embedded as `none`. -/
def validateMinChars : Validator := fun _ _ value _ params =>
  if params.length = 1 then
    match params.get? 1 with
    | none => none
    | some p =>
      some (match goParseInt p 16 with
        | some minChars => decide ((goLen value : Int) ≥ minChars)
        | none => false)
  else some false

/-- `validateMaxChars`, validator.go:215-221: same `params[1]` defect as
`validateMinChars`. -/
def validateMaxChars : Validator := fun _ _ value _ params =>
  if params.length = 1 then
    match params.get? 1 with
    | none => none
    | some p =>
      some (match goParseInt p 16 with
        | some maxChars => decide ((goLen value : Int) ≤ maxChars)
        | none => false)
  else some false

/-- `validateCharsBetween`, validator.go:130-137: with two parameters,
`validateMinChars(p1) && validateMaxChars(p2)` with Go's short-circuit
`&&`; a panic in either conjunct propagates. -/
def validateCharsBetween : Validator := fun env name value inputs params =>
  match params with
  | [pmin, pmax] =>
    match validateMinChars env name value inputs [pmin] with
    | none => none
    | some false => some false
    | some true => validateMaxChars env name value inputs [pmax]
  | _ => some false

/-- `validateConfirmed`, validator.go:139-142. -/
def validateConfirmed : Validator := fun _ name value inputs _ =>
  some (match lookupKey inputs (name ++ "_confirmation") with
    | some fieldValue => fieldValue == value
    | none => false)

/-- `validateDate`, validator.go:144-150. -/
def validateDate : Validator := fun env _ value _ params =>
  some (match params with
    | [layout] => env.timeParseOk layout value
    | _ => false)

/-- `validateSame`, validator.go:261-267: with exactly one parameter, the
named other field must be present and equal to the value. -/
def validateSame : Validator := fun _ _ value inputs params =>
  some (match params with
    | [p] =>
      match lookupKey inputs p with
      | some fieldValue => fieldValue == value
      | none => false
    | _ => false)

/-- `validateDifferent`, validator.go:152-154: negation of `validateSame`. -/
def validateDifferent : Validator := fun env name value inputs params =>
  (validateSame env name value inputs params).map (fun b => !b)

/-- The fixed pattern `^[0-9]+$` shared by the digit rules. -/
def matchDigits (s : String) : Bool :=
  !s.data.isEmpty && s.data.all (fun c => c.isDigit)

/-- `validateDigits`, validator.go:156-162. -/
def validateDigits : Validator := fun _ _ value _ params =>
  some (match params with
    | [p] =>
      if matchDigits value then
        match goParseInt p 16 with
        | some digitCount => (goLen value : Int) == digitCount
        | none => false
      else false
    | _ => false)

/-- `validateMinDigits`, validator.go:198-204. -/
def validateMinDigits : Validator := fun _ _ value _ params =>
  some (match params with
    | [p] =>
      if matchDigits value then
        match goParseInt p 16 with
        | some minDigits => decide ((goLen value : Int) ≥ minDigits)
        | none => false
      else false
    | _ => false)

/-- `validateMaxDigits`, validator.go:223-229. -/
def validateMaxDigits : Validator := fun _ _ value _ params =>
  some (match params with
    | [p] =>
      if matchDigits value then
        match goParseInt p 16 with
        | some maxDigits => decide ((goLen value : Int) ≤ maxDigits)
        | none => false
      else false
    | _ => false)

/-- `validateDigitsBetween`, validator.go:164-171. -/
def validateDigitsBetween : Validator := fun env name value inputs params =>
  match params with
  | [pmin, pmax] =>
    match validateMinDigits env name value inputs [pmin] with
    | none => none
    | some false => some false
    | some true => validateMaxDigits env name value inputs [pmax]
  | _ => some false

/-- Character class `[a-zA-Z0-9._%+-]` of the local part of the fixed
email pattern, validator.go:174. -/
def isEmailLocalChar (c : Char) : Bool :=
  c.isAlpha || c.isDigit || c == '.' || c == '_' || c == '%' || c == '+' || c == '-'

/-- Character class `[a-zA-Z0-9.-]` of the domain part of the fixed email
pattern. -/
def isEmailDomainChar (c : Char) : Bool :=
  c.isAlpha || c.isDigit || c == '.' || c == '-'

/-- Matcher for the suffix `[a-zA-Z0-9.-]+\.[a-zA-Z]+$` with a TLD of at
least two letters.  Any match must use the maximal alphabetic suffix as the
TLD (a shorter TLD would be preceded by a letter, not the required dot), so
the deterministic check below is equivalent to the regular expression. -/
def emailDomainMatch (l : List Char) : Bool :=
  let r := l.reverse
  let tld := r.takeWhile (fun c => c.isAlpha)
  match r.drop tld.length with
  | '.' :: beforeRev => decide (2 ≤ tld.length) && !beforeRev.isEmpty && beforeRev.all isEmailDomainChar
  | _ => false

/-- The fixed pattern `^[a-zA-Z0-9._%+-]+@[a-zA-Z0-9.-]+\.[a-zA-Z]+$`
(TLD length at least 2) of validator.go:174.  Neither character class
contains `@`, so a match forces exactly one `@`, splitting the value into
the local and domain parts checked here. -/
def emailMatch (value : String) : Bool :=
  match goSplit '@' value with
  | [lpart, dpart] =>
    !lpart.data.isEmpty && lpart.data.all isEmailLocalChar && emailDomainMatch dpart.data
  | _ => false

/-- `validateEmail`, validator.go:173-175. -/
def validateEmail : Validator := fun _ _ value _ _ =>
  some (emailMatch value)

/-- `validateIn`, validator.go:177-179. -/
def validateIn : Validator := fun _ _ value _ params =>
  some (stringInSlice value params)

/-- `validateInteger`, validator.go:181-184. -/
def validateInteger : Validator := fun _ _ value _ _ =>
  some (goParseInt value 64).isSome

/-- `validateIp`, validator.go:186-188. -/
def validateIp : Validator := fun env _ value _ _ =>
  some (env.parseIPOk value)

/-- `validateMinValue`, validator.go:206-213: both value and parameter must
parse as float64 and the value must be greater than or equal. -/
def validateMinValue : Validator := fun env _ value _ params =>
  some (match params with
    | [p] => env.floatGe value p
    | _ => false)

/-- `validateMaxValue`, validator.go:231-238. -/
def validateMaxValue : Validator := fun env _ value _ params =>
  some (match params with
    | [p] => env.floatLe value p
    | _ => false)

/-- `validateNotIn`, validator.go:240-242. -/
def validateNotIn : Validator := fun _ _ value _ params =>
  some (!stringInSlice value params)

/-- `validateNumeric`, validator.go:244-247. -/
def validateNumeric : Validator := fun env _ value _ _ =>
  some (env.parseFloatOk value)

/-- `validateRegex`, validator.go:249-255: compile the supplied pattern and
match; a compile failure makes the rule fail. -/
def validateRegex : Validator := fun env _ value _ params =>
  some (match params with
    | [p] => env.regexCompileOk p && env.regexMatchString p value
    | _ => false)

/-- `validateRequired`, validator.go:257-259. -/
def validateRequired : Validator := fun _ _ value _ _ =>
  some (!(value == ""))

/-- `validateUrl`, validator.go:269-275: only the scheme prefix of the
lower-cased value is checked. -/
def validateUrl : Validator := fun _ _ value _ _ =>
  let lc := goToLower value
  some (goStartsWith lc "http://" || goStartsWith lc "https://")

/-- `validateValue`, validator.go:277-284 (the source passes bit size 16 to
`strconv.ParseFloat`, which Go treats as the float64 path). -/
def validateValue : Validator := fun env _ value _ params =>
  some (match params with
    | [p] => env.floatEq value p
    | _ => false)

/-- `validateValueBetween`, validator.go:286-293. -/
def validateValueBetween : Validator := fun env name value inputs params =>
  match params with
  | [pmin, pmax] =>
    match validateMinValue env name value inputs [pmin] with
    | none => none
    | some false => some false
    | some true => validateMaxValue env name value inputs [pmax]
  | _ => some false

/-- The built-in rule registry `validators`, validator.go:15-47. -/
def validators (ruleName : String) : Option Validator :=
  match ruleName with
  | "accepted" => some validateAccepted
  | "active_url" => some validateActiveUrl
  | "alpha" => some validateAlpha
  | "alpha_dash" => some validateAlphaDash
  | "alpha_num" => some validateAlphaNumeric
  | "boolean" => some validateBoolean
  | "chars" => some validateChars
  | "chars_between" => some validateCharsBetween
  | "confirmed" => some validateConfirmed
  | "date" => some validateDate
  | "different" => some validateDifferent
  | "digits" => some validateDigits
  | "digits_between" => some validateDigitsBetween
  | "email" => some validateEmail
  | "in" => some validateIn
  | "integer" => some validateInteger
  | "ip" => some validateIp
  | "max_chars" => some validateMaxChars
  | "max_digits" => some validateMaxDigits
  | "max_value" => some validateMaxValue
  | "min_chars" => some validateMinChars
  | "min_digits" => some validateMinDigits
  | "min_value" => some validateMinValue
  | "not_in" => some validateNotIn
  | "numeric" => some validateNumeric
  | "regex" => some validateRegex
  | "required" => some validateRequired
  | "same" => some validateSame
  | "url" => some validateUrl
  | "value" => some validateValue
  | "value_between" => some validateValueBetween
  | _ => none

/-- The message template table `messages`, validator.go:49-81. -/
def messages (ruleName : String) : Option String :=
  match ruleName with
  | "accepted" => some "The %s must be accepted."
  | "active_url" => some "The %s is not a valid URL."
  | "alpha" => some "The %s may only contain letters."
  | "alpha_dash" => some "The %s may only contain letters, numbers, and dashes."
  | "alpha_num" => some "The %s may only contain letters and numbers."
  | "boolean" => some "The %s field must be true or false."
  | "chars" => some "The %s field must have %s characters."
  | "chars_between" => some "The %s field must have between %s characters."
  | "confirmed" => some "The %s confirmation does not match."
  | "date" => some "The %s is not a valid date."
  | "different" => some "The %s and %s must be different."
  | "digits" => some "The %s must have %s digits."
  | "digits_between" => some "The %s must have between %s and %s digits."
  | "email" => some "The %s must be a valid email address."
  | "in" => some "The selected %s is invalid."
  | "max_chars" => some "The %s must have fewer than %s characters."
  | "max_digits" => some "The %s must have fewer than %s digits."
  | "max_value" => some "The %s must be less than %s."
  | "min_chars" => some "The %s must have more than %s characters."
  | "min_digits" => some "The %s must have more than %s digits."
  | "min_value" => some "The %s must be greater than %s."
  | "integer" => some "The %s must be an integer."
  | "ip" => some "The %s must be a valid IP address."
  | "not_in" => some "The selected %s is invalid."
  | "numeric" => some "The %s must be a number."
  | "regex" => some "The %s format is invalid."
  | "required" => some "The %s field is required."
  | "same" => some "The %s and %s must match."
  | "url" => some "The %s format is invalid."
  | "value" => some "The %s must %s."
  | "value_between" => some "The %s must be between %s and %s."
  | _ => none

/-- `buildErrorMessage`, validator.go:341-352: look the template up (a Go
map read yields the zero value `""` when absent); fall back to the generic
message when the template is absent or its `%s` count differs from one plus
the parameter count, otherwise substitute field name and parameters. -/
def buildErrorMessage (fieldName ruleName : String) (params : List String) : String :=
  let message := (messages ruleName).getD ""
  let msgExists := (messages ruleName).isSome
  if !msgExists || countVerbs message != 1 + params.length then
    goSprintf "The %s is invalid." [fieldName]
  else
    goSprintf message (fieldName :: params)

/-- `splitRuleParams`, validator.go:354-363: split the token on `:`; with
exactly two pieces the second is comma-split into parameters, otherwise the
whole token is the rule name and there are no parameters. -/
def splitRuleParams (ruleWithParams : String) : String × List String :=
  match goSplit ':' ruleWithParams with
  | [ruleName, paramStr] => (ruleName, goSplit ',' paramStr)
  | _ => (ruleWithParams, [])

/-- One iteration of the inner rule loop of `Validate`,
validator.go:312-319: parse the token, skip it when the rule name is not
registered, otherwise run the validator and on failure overwrite the
field's message. -/
def evalRule (env : Env) (inputs : GoMap) (fieldName fieldValue : String)
    (msgs : GoMap) (token : String) : Option GoMap :=
  match splitRuleParams token with
  | (ruleName, params) =>
    match validators ruleName with
    | some vFn =>
      match vFn env fieldName fieldValue inputs params with
      | none => none
      | some ok =>
        some (if ok then msgs
          else setKey msgs fieldName (buildErrorMessage fieldName ruleName params))
    | none => some msgs

/-- The inner rule loop of `Validate`, validator.go:311-320, left to right
over the field's tokens. -/
def evalRules (env : Env) (inputs : GoMap) (fieldName fieldValue : String)
    (msgs : GoMap) : List String → Option GoMap
  | [] => some msgs
  | token :: rest =>
    match evalRule env inputs fieldName fieldValue msgs token with
    | none => none
    | some msgs1 => evalRules env inputs fieldName fieldValue msgs1 rest

/-- The body of `Validate`'s outer loop for one field,
validator.go:301-321: a Go map read of an absent key yields `("", false)`;
a required absent field records the `required` message and evaluates
nothing else; otherwise the rules run when the field is required, marked
`always`, or non-empty; otherwise the field is skipped. -/
def processField (env : Env) (inputs : GoMap) (fieldName fieldRulesRaw : String)
    (msgs : GoMap) : Option GoMap :=
  let fieldValue := (lookupKey inputs fieldName).getD ""
  let fieldExists := (lookupKey inputs fieldName).isSome
  let fieldRules := goSplit '|' fieldRulesRaw
  let fieldIsRequired := stringInSlice "required" fieldRules
  let alwaysValidate := stringInSlice "always" fieldRules
  if fieldIsRequired && !fieldExists then
    some (setKey msgs fieldName (buildErrorMessage fieldName "required" []))
  else if fieldIsRequired || alwaysValidate || (!fieldIsRequired && !(fieldValue == "")) then
    evalRules env inputs fieldName fieldValue msgs fieldRules
  else
    some msgs

/-- The outer loop of `Validate` over the rule set. -/
def validateFields (env : Env) (inputs : GoMap) (msgs : GoMap) : GoMap → Option GoMap
  | [] => some msgs
  | (fieldName, fieldRulesRaw) :: rest =>
    match processField env inputs fieldName fieldRulesRaw msgs with
    | none => none
    | some msgs1 => validateFields env inputs msgs1 rest

/-- `Validate`, validator.go:295-325: run every field against its rules,
starting from an empty message map; success is emptiness of the collected
messages.  `none` is a runtime panic escaping the call. -/
def Validate (env : Env) (inputs rules : GoMap) : Option (Bool × GoMap) :=
  (validateFields env inputs [] rules).map (fun msgs => (msgs.length == 0, msgs))

/-- A concrete environment used to instantiate universally quantified
theorems on concrete inputs: every abstracted library call reports failure. -/
def testEnv : Env where
  lookupHostOk := fun _ => false
  regexCompileOk := fun _ => false
  regexMatchString := fun _ _ => false
  parseIPOk := fun _ => false
  timeParseOk := fun _ _ => false
  parseFloatOk := fun _ => false
  floatGe := fun _ _ => false
  floatLe := fun _ _ => false
  floatEq := fun _ _ => false

/-- Spec-side bookkeeping for one token of the inner rule loop: `none` when
running the token panics, `some none` when it has no effect (unknown rule
name, or the validator passes), and `some (some (ruleName, params))` when
the validator fails. -/
def tokenFailure (env : Env) (inputs : GoMap) (fieldName fieldValue : String)
    (token : String) : Option (Option (String × List String)) :=
  match splitRuleParams token with
  | (ruleName, params) =>
    match validators ruleName with
    | some vFn =>
      match vFn env fieldName fieldValue inputs params with
      | none => none
      | some ok => some (if ok then none else some (ruleName, params))
    | none => some none

/-- The last failing token of a field's token list (panicking tokens are
irrelevant to its callers, which assume the loop completed). -/
def lastFailure (env : Env) (inputs : GoMap) (fieldName fieldValue : String) :
    List String → Option (String × List String)
  | [] => none
  | token :: rest =>
    match lastFailure env inputs fieldName fieldValue rest with
    | some rp => some rp
    | none =>
      match tokenFailure env inputs fieldName fieldValue token with
      | some (some rp) => some rp
      | _ => none

theorem lookupKey_setKey_self (m : GoMap) (k v : String) :
    lookupKey (setKey m k v) k = some v := by
  induction m with
  | nil => simp [setKey, lookupKey]
  | cons hd tl ih =>
    obtain ⟨k1, v1⟩ := hd
    by_cases h : k1 = k <;> simp [setKey, lookupKey, h, ih]

theorem lookupKey_setKey_other (m : GoMap) (k v g : String) (h : g ≠ k) :
    lookupKey (setKey m k v) g = lookupKey m g := by
  induction m with
  | nil => simp [setKey, lookupKey, h.symm]
  | cons hd tl ih =>
    obtain ⟨k1, v1⟩ := hd
    by_cases h1 : k1 = k
    · subst h1
      simp [setKey, lookupKey, h.symm]
    · simp [setKey, lookupKey, h1, ih]

theorem evalRule_eq_tokenFailure (env : Env) (inputs : GoMap)
    (fieldName fieldValue : String) (msgs : GoMap) (token : String) :
    evalRule env inputs fieldName fieldValue msgs token =
      (tokenFailure env inputs fieldName fieldValue token).map
        (fun o => match o with
          | none => msgs
          | some rp => setKey msgs fieldName (buildErrorMessage fieldName rp.1 rp.2)) := by
  unfold evalRule tokenFailure
  cases hsp : splitRuleParams token with
  | mk rn ps =>
    cases hv : validators rn with
    | none => simp [hv]
    | some vFn =>
      cases hr : vFn env fieldName fieldValue inputs ps with
      | none => simp [hv, hr]
      | some ok => cases ok <;> simp [hv, hr]

theorem evalRules_other_keys (env : Env) (inputs : GoMap) (fieldName fieldValue : String)
    (tokens : List String) (msgs msgs1 : GoMap)
    (h : evalRules env inputs fieldName fieldValue msgs tokens = some msgs1)
    (g : String) (hg : g ≠ fieldName) :
    lookupKey msgs1 g = lookupKey msgs g := by
  induction tokens generalizing msgs with
  | nil =>
    unfold evalRules at h
    cases h
    rfl
  | cons token rest ih =>
    unfold evalRules at h
    rw [evalRule_eq_tokenFailure] at h
    cases htf : tokenFailure env inputs fieldName fieldValue token with
    | none => rw [htf] at h; simp at h
    | some o =>
      rw [htf] at h
      cases o with
      | none => simpa using ih _ (by simpa using h)
      | some rp =>
        simp at h
        rw [ih _ h]
        exact lookupKey_setKey_other _ _ _ _ hg

theorem evalRules_field_key (env : Env) (inputs : GoMap) (fieldName fieldValue : String)
    (tokens : List String) (msgs msgs1 : GoMap)
    (h : evalRules env inputs fieldName fieldValue msgs tokens = some msgs1) :
    lookupKey msgs1 fieldName =
      (match lastFailure env inputs fieldName fieldValue tokens with
       | some rp => some (buildErrorMessage fieldName rp.1 rp.2)
       | none => lookupKey msgs fieldName) := by
  induction tokens generalizing msgs with
  | nil =>
    unfold evalRules at h
    cases h
    rfl
  | cons token rest ih =>
    unfold evalRules at h
    rw [evalRule_eq_tokenFailure] at h
    unfold lastFailure
    cases htf : tokenFailure env inputs fieldName fieldValue token with
    | none => rw [htf] at h; simp at h
    | some o =>
      rw [htf] at h
      cases o with
      | none =>
        rw [ih _ (by simpa using h)]
        cases hlf : lastFailure env inputs fieldName fieldValue rest <;> simp
      | some rp =>
        simp at h
        rw [ih _ h]
        cases hlf : lastFailure env inputs fieldName fieldValue rest <;>
          simp [lookupKey_setKey_self]

theorem goSprintf_fallback (f : String) :
    goSprintf "The %s is invalid." [f] = "The " ++ f ++ " is invalid." := by
  obtain ⟨l⟩ := f
  rfl

theorem splitChAux_ne_nil (c : Char) (l : List Char) : splitChAux c l ≠ [] := by
  induction l with
  | nil => simp [splitChAux]
  | cons x xs ih =>
    unfold splitChAux
    by_cases h : x = c
    · simp [h]
    · simp only [h, if_false]
      cases hs : splitChAux c xs <;> simp

theorem splitChAux_no_sep (c : Char) (l : List Char) (h : c ∉ l) : splitChAux c l = [l] := by
  induction l with
  | nil => rfl
  | cons x xs ih =>
    unfold splitChAux
    have hx : ¬ x = c := fun he => h (he ▸ List.mem_cons_self x xs)
    rw [if_neg hx, ih (fun hm => h (List.mem_cons_of_mem x hm))]

theorem splitChAux_append (c : Char) (a b : List Char) (h : c ∉ a) :
    splitChAux c (a ++ c :: b) = a :: splitChAux c b := by
  induction a with
  | nil => simp [splitChAux]
  | cons x xs ih =>
    have hx : ¬ x = c := fun he => h (he ▸ List.mem_cons_self x xs)
    have hxs : c ∉ xs := fun hm => h (List.mem_cons_of_mem x hm)
    simp only [List.cons_append]
    conv_lhs => rw [splitChAux]
    rw [if_neg hx, ih hxs]

theorem splitChAux_length (c : Char) (l : List Char) :
    (splitChAux c l).length = l.count c + 1 := by
  induction l with
  | nil => rfl
  | cons x xs ih =>
    unfold splitChAux
    by_cases h : x = c
    · subst h
      simp [List.count_cons, ih]
    · simp only [h, if_false]
      cases hs : splitChAux c xs with
      | nil => exact absurd hs (splitChAux_ne_nil c xs)
      | cons y ys =>
        rw [hs] at ih
        simp at ih
        simp [List.count_cons, h, ih]

theorem processField_other_keys (env : Env) (inputs : GoMap)
    (fieldName fieldRulesRaw : String) (msgs msgs1 : GoMap)
    (h : processField env inputs fieldName fieldRulesRaw msgs = some msgs1)
    (g : String) (hg : g ≠ fieldName) :
    lookupKey msgs1 g = lookupKey msgs g := by
  unfold processField at h
  simp only [] at h
  split at h
  · cases h
    exact lookupKey_setKey_other _ _ _ _ hg
  · split at h
    · exact evalRules_other_keys env inputs fieldName _ _ msgs msgs1 h g hg
    · cases h
      rfl

theorem validateFields_keys (env : Env) (inputs : GoMap) (rules : GoMap)
    (msgs msgs1 : GoMap)
    (h : validateFields env inputs msgs rules = some msgs1)
    (g : String) (hg : (lookupKey msgs1 g).isSome = true) :
    (lookupKey msgs g).isSome = true ∨ (lookupKey rules g).isSome = true := by
  induction rules generalizing msgs with
  | nil =>
    unfold validateFields at h
    cases h
    exact Or.inl hg
  | cons hd rest ih =>
    obtain ⟨f, r⟩ := hd
    unfold validateFields at h
    cases hp : processField env inputs f r msgs with
    | none => rw [hp] at h; simp at h
    | some mm =>
      rw [hp] at h
      by_cases hgf : g = f
      · subst hgf
        right
        simp [lookupKey]
      · rcases ih mm h with hl | hr
        · left
          rw [← processField_other_keys env inputs f r msgs mm hp g hgf]
          exact hl
        · right
          simp only [lookupKey]
          rw [if_neg (Ne.symm hgf)]
          exact hr

/-- C1: the claim that `Validate` always completes without a panic is
violated by the source: with inputs mapping `name` to a non-empty value
and the rule string `min_chars:1`, the inner loop calls `validateMinChars`
with a one-element parameter slice, whose body reads `params[1]` under the
guard `len(params) == 1` (validator.go:192) — an index-out-of-range panic,
which propagates out of `Validate` (embedded as `none`) for every
environment. -/
theorem validate_min_chars_panic (env : Env) :
    Validate env [("name", "ab")] [("name", "min_chars:1")] = none := rfl

/-- C2: the claim that `chars_between:3,6` passes exactly for lengths in
[3,6] is violated by the source: `validateCharsBetween` forwards its first
parameter as the one-element slice `["3"]` to `validateMinChars`, which
reads `params[1]` (validator.go:192) and panics, for every value of the
field, every environment and every inputs mapping. -/
theorem chars_between_always_panics (env : Env) (name value : String) (inputs : GoMap) :
    validateCharsBetween env name value inputs ["3", "6"] = none := rfl

/-- C3: a field whose rule string contains the `required` token and that is
absent from the inputs mapping gets exactly the `required` rule's message
recorded, and none of its other rules is evaluated: the field's processing
step returns the incoming message map updated at this field only, whatever
the other tokens of the rule string are. -/
theorem required_absent_records_required_only (env : Env) (inputs msgs : GoMap)
    (fieldName fieldRulesRaw : String)
    (hreq : stringInSlice "required" (goSplit '|' fieldRulesRaw) = true)
    (habs : lookupKey inputs fieldName = none) :
    processField env inputs fieldName fieldRulesRaw msgs =
      some (setKey msgs fieldName (buildErrorMessage fieldName "required" [])) := by
  unfold processField
  simp [hreq, habs]

/-- C3 witness: field `name` with rules `required|alpha`, absent from the
inputs: exactly the `required` message is recorded and `alpha` never runs. -/
theorem required_absent_records_required_only_witness :
    processField testEnv [] "name" "required|alpha" [] =
      some [("name", "The name field is required.")] := by
  have h := required_absent_records_required_only testEnv [] [] "name" "required|alpha"
    (by decide) rfl
  exact h.trans (by rfl)

/-- C4: a field whose rule list contains neither `required` nor `always`
and whose submitted value is absent or empty is skipped entirely: no rule
is evaluated (in particular no panic can occur) and the message map is
returned unchanged, regardless of the other declared rules. -/
theorem optional_absent_or_empty_field_skipped (env : Env) (inputs msgs : GoMap)
    (fieldName fieldRulesRaw : String)
    (hreq : stringInSlice "required" (goSplit '|' fieldRulesRaw) = false)
    (halw : stringInSlice "always" (goSplit '|' fieldRulesRaw) = false)
    (hval : lookupKey inputs fieldName = none ∨ lookupKey inputs fieldName = some "") :
    processField env inputs fieldName fieldRulesRaw msgs = some msgs := by
  unfold processField
  rcases hval with h | h <;> simp [h, hreq, halw]

/-- C4 witness: the spec's example, rule string `email|max_chars:5` on a
present-but-empty optional field, produces no message. -/
theorem optional_absent_or_empty_field_skipped_witness :
    processField testEnv [("mail", "")] "mail" "email|max_chars:5" [] = some [] :=
  optional_absent_or_empty_field_skipped testEnv [("mail", "")] [] "mail"
    "email|max_chars:5" (by decide) (by decide) (Or.inr rfl)

/-- C5: a rule token whose parsed rule name has no entry in the validator
registry has no effect: the inner-loop step for that token returns the
message map unchanged (and cannot panic), so the token never produces a
message and never by itself fails the field. -/
theorem unknown_rule_token_no_effect (env : Env) (inputs msgs : GoMap)
    (fieldName fieldValue token : String)
    (h : validators (splitRuleParams token).1 = none) :
    evalRule env inputs fieldName fieldValue msgs token = some msgs := by
  unfold evalRule
  cases hsp : splitRuleParams token with
  | mk rn ps =>
    rw [hsp] at h
    simp at h
    simp [h]

/-- C5 witness: the token `unknown_rule` is not registered and leaves the
message map untouched. -/
theorem unknown_rule_token_no_effect_witness :
    evalRule testEnv [] "field" "val" [] "unknown_rule" = some [] :=
  unknown_rule_token_no_effect testEnv [] [] "field" "val" "unknown_rule" rfl

/-- C6: within one field the rules run strictly left to right and each
failing rule overwrites the field's previously recorded message: when the
inner loop completes, keys other than the field are untouched and the
field's entry is the message built from the last failing token (or the
incoming entry when no token failed) — at most one message is retained per
field and the last failing rule's message wins. -/
theorem last_failing_rule_message_wins (env : Env) (inputs : GoMap)
    (fieldName fieldValue : String) (tokens : List String) (msgs msgs1 : GoMap)
    (h : evalRules env inputs fieldName fieldValue msgs tokens = some msgs1) :
    (∀ g, g ≠ fieldName → lookupKey msgs1 g = lookupKey msgs g) ∧
    lookupKey msgs1 fieldName =
      (match lastFailure env inputs fieldName fieldValue tokens with
       | some rp => some (buildErrorMessage fieldName rp.1 rp.2)
       | none => lookupKey msgs fieldName) :=
  ⟨fun g hg => evalRules_other_keys env inputs fieldName fieldValue tokens msgs msgs1 h g hg,
   evalRules_field_key env inputs fieldName fieldValue tokens msgs msgs1 h⟩

/-- C6 witness: on value `abc` the tokens `alpha` (passes) then `chars:2`
(fails) leave exactly the `chars` message on field `f` and do not touch the
unrelated key `g`. -/
theorem last_failing_rule_message_wins_witness :
    lookupKey [("g", "m"), ("f", "The f field must have 2 characters.")] "f" =
      some (buildErrorMessage "f" "chars" ["2"]) ∧
    lookupKey [("g", "m"), ("f", "The f field must have 2 characters.")] "g" =
      lookupKey [("g", "m")] "g" := by
  have h := last_failing_rule_message_wins testEnv [] "f" "abc" ["alpha", "chars:2"]
    [("g", "m")] [("g", "m"), ("f", "The f field must have 2 characters.")] rfl
  exact ⟨h.2.trans (by rfl), h.1 "g" (by decide)⟩

/-- C7: message construction for a failing rule: when the rule name has no
template in the message table, or the template's `%s` count differs from
one plus the parameter count, the message is exactly
`The <field> is invalid.`; otherwise the field name and then each
parameter are substituted positionally into the template. -/
theorem build_error_message_template_spec (fieldName ruleName : String) (params : List String) :
    buildErrorMessage fieldName ruleName params =
      match messages ruleName with
      | none => "The " ++ fieldName ++ " is invalid."
      | some tmpl =>
        if countVerbs tmpl = 1 + params.length
        then goSprintf tmpl (fieldName :: params)
        else "The " ++ fieldName ++ " is invalid." := by
  unfold buildErrorMessage
  cases hm : messages ruleName with
  | none => simp [hm, goSprintf_fallback]
  | some tmpl =>
    by_cases hc : countVerbs tmpl = 1 + params.length <;>
      simp [hm, hc, goSprintf_fallback]

/-- C8: the parser splits a token once on `:`: a token with exactly one
colon yields the text before the colon and the comma-split of the text
after it, and a token with two or more colons is returned as a rule named
by the full original token with zero parameters; being a total function,
the parser raises no error for any token. -/
theorem split_rule_params_colon_spec :
    (∀ a b : String, ':' ∉ a.data → ':' ∉ b.data →
        splitRuleParams (a ++ ":" ++ b) = (a, goSplit ',' b)) ∧
    (∀ t : String, 2 ≤ t.data.count ':' → splitRuleParams t = (t, [])) := by
  constructor
  · intro a b ha hb
    obtain ⟨la⟩ := a
    obtain ⟨lb⟩ := b
    unfold splitRuleParams goSplit
    have hd : (String.mk la ++ ":" ++ String.mk lb).data = la ++ ':' :: lb := by
      rw [String.data_append, String.data_append]
      simp
    rw [hd, splitChAux_append _ _ _ ha, splitChAux_no_sep _ _ hb]
    rfl
  · intro t ht
    unfold splitRuleParams goSplit
    have hlen : 3 ≤ (splitChAux ':' t.data).length := by
      rw [splitChAux_length]
      omega
    cases hs : splitChAux ':' t.data with
    | nil => rw [hs] at hlen; simp at hlen
    | cons x xs =>
      cases xs with
      | nil => rw [hs] at hlen; simp at hlen
      | cons y ys =>
        cases ys with
        | nil => rw [hs] at hlen; simp at hlen
        | cons z zs => rfl

/-- C8 witness: `max_chars:20` parses into rule `max_chars` with parameter
list `["20"]`, and the multi-colon token `a:b:c` degrades to a rule named
`a:b:c` with zero parameters. -/
theorem split_rule_params_colon_spec_witness :
    splitRuleParams "max_chars:20" = ("max_chars", ["20"]) ∧
    splitRuleParams "a:b:c" = ("a:b:c", []) := by
  constructor
  · have h1 := split_rule_params_colon_spec.1 "max_chars" "20" (by decide) (by decide)
    have e : ("max_chars" ++ ":" ++ "20" : String) = "max_chars:20" := by decide
    rw [e] at h1
    exact h1.trans (by rfl)
  · exact split_rule_params_colon_spec.2 "a:b:c" (by decide)

/-- C9: the rule `same` with parameter list `["password"]` passes exactly
when the inputs mapping binds `password` to a string equal (case-sensitive)
to the field's value; in particular it fails when `password` is absent. -/
theorem same_password_exact_match_iff (env : Env) (name value : String) (inputs : GoMap) :
    validateSame env name value inputs ["password"] =
      some (decide (lookupKey inputs "password" = some value)) := by
  unfold validateSame
  cases h : lookupKey inputs "password" with
  | none => simp [h]
  | some fv =>
    simp only [h]
    by_cases he : fv = value <;> simp [he]

/-- C10: when `Validate` completes, every key of the returned messages
mapping is a key of the rules mapping (so fields without a declared rule
string never receive a message), and the success flag is true exactly when
the messages mapping is empty. -/
theorem validate_messages_keys_and_success (env : Env) (inputs rules : GoMap)
    (ok : Bool) (msgs : GoMap)
    (h : Validate env inputs rules = some (ok, msgs)) :
    (∀ g, (lookupKey msgs g).isSome = true → (lookupKey rules g).isSome = true) ∧
    (ok = true ↔ msgs = []) := by
  unfold Validate at h
  cases hv : validateFields env inputs [] rules with
  | none => rw [hv] at h; simp at h
  | some m =>
    rw [hv] at h
    have h2 : ((m.length == 0 : Bool), m) = (ok, msgs) := Option.some.inj h
    injection h2 with hok hm
    subst hm
    constructor
    · intro g hg
      rcases validateFields_keys env inputs rules [] m hv g hg with hl | hr
      · simp [lookupKey] at hl
      · exact hr
    · rw [← hok]
      cases m <;> simp

/-- C10 witness: validating rules mapping `name` to `required` against
empty inputs fails with one message, whose key `name` is a rules key and
whose non-emptiness matches the false success flag. -/
theorem validate_messages_keys_and_success_witness :
    (lookupKey [("name", "required")] "name").isSome = true ∧
    ((false : Bool) = true ↔ ([("name", "The name field is required.")] : GoMap) = []) := by
  have h := validate_messages_keys_and_success testEnv [] [("name", "required")] false
    [("name", "The name field is required.")] rfl
  exact ⟨h.1 "name" (by decide), h.2⟩
